import Mathlib

/-!
Verification development for the rich-text-editor component library.

The definitions below are shallow embeddings of the library's pure logic:
the slash-command registry (`commands.ts`), the plugin composition in the
editor shell, the file-upload lifecycle (`file-upload` plugin and the
`fileAttachment` extension's `completeFileUpload` / `failFileUpload`
commands), the upload-id generator, and the mention suggestion logic.
Opaque host values (icon handles, action callbacks, React nodes) are
modelled as `Nat` handles; host callbacks are modelled as emitted events.
-/

namespace RTE

/-! ## Command registry (`commands.ts`, `types.ts`) -/

/-- The `SlashCommandGroup` union from `types.ts`, in source order. -/
inductive SlashCommandGroup
  | basic
  | lists
  | formatting
  | media
  | advanced
  | custom
deriving DecidableEq, Repr

/-- The `SlashCommand` interface from `types.ts`.  `icon` (a Lucide icon
component) and `action` (a callback) are opaque host values, modelled as
`Nat` handles; the registry logic never inspects them. -/
structure SlashCommand where
  name : String
  description : String
  icon : Nat
  aliases : Option (List String)
  group : SlashCommandGroup
  action : Nat
deriving DecidableEq, Repr

/-- The `SlashCommandGroupInfo` interface from `types.ts`. -/
structure SlashCommandGroupInfo where
  id : SlashCommandGroup
  label : String
  priority : Nat
deriving DecidableEq, Repr

/-- `commandGroups` from `commands.ts`, in source order. -/
def commandGroups : List SlashCommandGroupInfo :=
  [ ⟨.basic, "Basic Blocks", 1⟩,
    ⟨.lists, "Lists", 2⟩,
    ⟨.formatting, "Formatting", 3⟩,
    ⟨.advanced, "Advanced", 4⟩,
    ⟨.media, "Media", 5⟩,
    ⟨.custom, "Custom", 6⟩ ]

/-- JavaScript `String.prototype.includes`: substring containment. -/
def jsIncludes (s sub : String) : Bool :=
  decide (sub.data <:+: s.data)

/-- JavaScript `String.prototype.toLowerCase` (ASCII-adequate model). -/
def jsToLower (s : String) : String :=
  ⟨s.data.map Char.toLower⟩

/-- JavaScript `String.prototype.startsWith`. -/
def jsStartsWith (s pre : String) : Bool :=
  decide (pre.data <+: s.data)

/-- JavaScript `String.prototype.endsWith`. -/
def jsEndsWith (s post : String) : Bool :=
  decide (post.data <:+ s.data)

/-- JavaScript `String.prototype.slice(0, -n)`: drop the last `n`
characters. -/
def jsDropRight (s : String) (n : Nat) : String :=
  ⟨s.data.take (s.data.length - n)⟩

/-- `filterCommands` from `commands.ts`: empty query is the identity,
otherwise keep the commands whose lowercased name, description, or any
lowercased alias contains the lowercased query. -/
def filterCommands (commands : List SlashCommand) (query : String) :
    List SlashCommand :=
  if query = "" then commands
  else
    let lowerQuery := jsToLower query
    commands.filter fun command =>
      let nameMatch := jsIncludes (jsToLower command.name) lowerQuery
      let descriptionMatch := jsIncludes (jsToLower command.description) lowerQuery
      let aliasMatch :=
        (command.aliases.map fun als =>
          als.any fun al => jsIncludes (jsToLower al) lowerQuery).getD false
      nameMatch || descriptionMatch || aliasMatch

/-- Spec-side matching predicate, from the spec's words: "case-insensitive
substring match against name, description, or any alias". -/
def specCommandMatches (query : String) (c : SlashCommand) : Bool :=
  decide ((jsToLower query).data <:+: (jsToLower c.name).data) ||
  decide ((jsToLower query).data <:+: (jsToLower c.description).data) ||
  (c.aliases.getD []).any fun a =>
    decide ((jsToLower query).data <:+: (jsToLower a).data)

/-- Stable insertion sort on group priority: the embedding of
`[...commandGroups].sort((a, b) => a.priority - b.priority)` (JavaScript
`Array.prototype.sort` is stable). -/
def insertGroupByPriority (g : SlashCommandGroupInfo) :
    List SlashCommandGroupInfo → List SlashCommandGroupInfo
  | [] => [g]
  | h :: t =>
    if g.priority < h.priority then g :: h :: t
    else h :: insertGroupByPriority g t

/-- Sorts a group list by ascending priority (stable). -/
def sortGroupsByPriority : List SlashCommandGroupInfo →
    List SlashCommandGroupInfo
  | [] => []
  | h :: t => insertGroupByPriority h (sortGroupsByPriority t)

/-- `groupCommands` from `commands.ts`: iterate the priority-sorted group
list, bucket the input by `group`, keep only non-empty buckets; the
JavaScript `Map` (insertion-ordered) is modelled as an association list. -/
def groupCommands (commands : List SlashCommand) :
    List (SlashCommandGroupInfo × List SlashCommand) :=
  (sortGroupsByPriority commandGroups).filterMap fun group =>
    let grpCmds := commands.filter fun cmd => cmd.group == group.id
    if grpCmds.isEmpty then none else some (group, grpCmds)

/-- Spec-side fixed bucket order, from the spec's words: "basic, lists,
formatting, advanced, media, custom" with priorities 1–6. -/
def specOrderedGroups : List SlashCommandGroupInfo :=
  [ ⟨.basic, "Basic Blocks", 1⟩,
    ⟨.lists, "Lists", 2⟩,
    ⟨.formatting, "Formatting", 3⟩,
    ⟨.advanced, "Advanced", 4⟩,
    ⟨.media, "Media", 5⟩,
    ⟨.custom, "Custom", 6⟩ ]

/-! ## Plugin composition (editor shell) -/

/-- The `ToolbarAction` interface from `types.ts`; `icon`, `isActive` and
`action` are opaque host values modelled as handles. -/
structure ToolbarAction where
  id : String
  icon : Nat
  label : String
  isActive : Option Nat
  action : Nat
deriving DecidableEq, Repr

/-- The `EditorPlugin` interface from `types.ts`.  The optional fields keep
their optionality (`undefined` is `none`); framework extensions and
lifecycle callbacks are opaque handles. -/
structure EditorPlugin where
  name : String
  slashCommands : Option (List SlashCommand)
  toolbarActions : Option (List ToolbarAction)
  extensions : Option (List Nat)
  onInit : Option Nat
  onDestroy : Option Nat
deriving DecidableEq, Repr

/-- `defaultSlashCommands` from `commands.ts`: the twelve built-in
commands with their names, descriptions, aliases and groups; icons and
actions are distinct opaque handles. -/
def defaultSlashCommands : List SlashCommand :=
  [ ⟨"Text", "Just start writing with plain text", 0, some ["paragraph", "p"], .basic, 100⟩,
    ⟨"Heading 1", "Large section heading", 1, some ["h1", "title"], .basic, 101⟩,
    ⟨"Heading 2", "Medium section heading", 2, some ["h2", "subtitle"], .basic, 102⟩,
    ⟨"Heading 3", "Small section heading", 3, some ["h3"], .basic, 103⟩,
    ⟨"Bullet List", "Create a simple bullet list", 4, some ["ul", "unordered", "bullets"], .lists, 104⟩,
    ⟨"Numbered List", "Create a numbered list", 5, some ["ol", "ordered", "numbers"], .lists, 105⟩,
    ⟨"Task List", "Track tasks with a to-do list", 6, some ["todo", "checkbox", "checklist"], .lists, 106⟩,
    ⟨"Inline Code", "Mark text as inline code", 7, some ["code", "monospace", "mono"], .formatting, 107⟩,
    ⟨"Highlight", "Highlight important text", 8, some ["mark", "marker", "yellow"], .formatting, 108⟩,
    ⟨"Link", "Add a link to text", 9, some ["url", "href", "anchor"], .formatting, 109⟩,
    ⟨"Quote", "Capture a quote", 10, some ["blockquote", "quotation"], .advanced, 110⟩,
    ⟨"Code Block", "Display code with syntax highlighting", 11, some ["codeblock", "pre", "syntax"], .advanced, 111⟩,
    ⟨"Divider", "Visually divide blocks", 12, some ["hr", "horizontal", "rule", "separator"], .advanced, 112⟩ ]

/-- `allSlashCommands` from the editor shell: built-in commands first,
then each plugin's commands in the order the host supplied the plugins
(`plugins.flatMap((p) => p.slashCommands ?? [])`). -/
def allSlashCommands (plugins : List EditorPlugin) : List SlashCommand :=
  defaultSlashCommands ++ plugins.flatMap fun p => p.slashCommands.getD []

/-- `pluginExtensions` from the editor shell. -/
def pluginExtensions (plugins : List EditorPlugin) : List Nat :=
  plugins.flatMap fun p => p.extensions.getD []

/-- `pluginToolbarActions` from the editor shell. -/
def pluginToolbarActions (plugins : List EditorPlugin) : List ToolbarAction :=
  plugins.flatMap fun p => p.toolbarActions.getD []

/-- A host plugin that registers one command named "X". -/
def pluginWithXa : EditorPlugin :=
  ⟨"pluginA", some [⟨"X", "from plugin A", 201, none, .custom, 202⟩], none, none, none, none⟩

/-- A second host plugin that also registers a command named "X". -/
def pluginWithXb : EditorPlugin :=
  ⟨"pluginB", some [⟨"X", "from plugin B", 203, none, .custom, 204⟩], none, none, none, none⟩

/-! ## File-upload lifecycle (`file-upload` plugin and `fileAttachment`
extension) -/

/-- `'block' | 'inline'` display modes. -/
inductive DisplayMode
  | block
  | inline
deriving DecidableEq, Repr

/-- `'left' | 'center' | 'right'` alignments. -/
inductive FileAlignment
  | left
  | center
  | right
deriving DecidableEq, Repr

/-- A browser `File`: name, byte size, MIME type. -/
structure JsFile where
  name : String
  size : Nat
  type : String
deriving DecidableEq, Repr

/-- The `fileAttachment` node attributes declared in the extension's
`addAttributes`. -/
structure FileAttachmentAttrs where
  src : String
  name : String
  size : Nat
  mimeType : String
  displayMode : DisplayMode
  alignment : FileAlignment
  width : Option Nat
  uploading : Bool
  uploadId : Option String
deriving DecidableEq, Repr

/-- The kind of error handed to `onUploadError`. -/
inductive UploadErrorKind
  | sizeExceeded
  | typeRejected
  | uploadFailed (msg : String)
deriving DecidableEq, Repr

/-- Observable actions of `uploadFile`: document mutations and host
callbacks, in program order. -/
inductive UploadAction
  | insertPlaceholder (mode : DisplayMode) (attrs : FileAttachmentAttrs)
  | notifyUploadStart (fileName : String)
  | invokeUpload (fileName : String)
  | notifyUploadComplete (fileName url : String)
  | notifyUploadError (fileName : String) (kind : UploadErrorKind)
deriving DecidableEq, Repr

/-- The logic-bearing fields of `FileUploadPluginOptions`; the callback
fields are modelled as the emitted `UploadAction`s, and `onFetchFile`,
`previewOptions` and `onFileDelete` are pass-through host values the
upload pipeline never inspects. -/
structure FileUploadPluginOptions where
  accept : Option (List String)
  maxSize : Option Nat
  defaultDisplayMode : Option DisplayMode
  displayModeByType : Option (List (String × DisplayMode))
deriving DecidableEq, Repr

/-- The accept-pattern check inside `uploadFile`: extension suffix match
for patterns starting with a dot, MIME-prefix match for `type/*`
patterns (note: bare `startsWith` on the base type, without a slash),
exact MIME equality otherwise. -/
def isAcceptedFile (accept : List String) (file : JsFile) : Bool :=
  accept.any fun pat =>
    if jsStartsWith pat "." then jsEndsWith (jsToLower file.name) (jsToLower pat)
    else if jsEndsWith pat "/*" then jsStartsWith file.type (jsDropRight pat 2)
    else file.type == pat

/-- Whether a `displayModeByType` entry is a wildcard pattern matching
the MIME type (`pattern.endsWith('/*')` and
`mimeType.startsWith(baseType + '/')`). -/
def wildcardEntryMatches (mimeType : String) (entry : String × DisplayMode) : Bool :=
  jsEndsWith entry.1 "/*" && jsStartsWith mimeType (jsDropRight entry.1 2 ++ "/")

/-- `getDisplayModeForType` from the `file-upload` plugin: no map means
the given default; otherwise an exact key match wins, then the first
matching wildcard entry, then the default.  The JavaScript object is
modelled as an association list in key-insertion order. -/
def getDisplayModeForType (mimeType : String)
    (displayModeByType : Option (List (String × DisplayMode)))
    (defaultMode : DisplayMode) : DisplayMode :=
  match displayModeByType with
  | none => defaultMode
  | some m =>
    match m.lookup mimeType with
    | some mode => mode
    | none =>
      match m.find? (wildcardEntryMatches mimeType) with
      | some entry => entry.2
      | none => defaultMode

/-- The synchronous prefix of `uploadFile` (everything before the
`await`), as its trace of observable actions: size check, accept check,
display-mode resolution, placeholder insertion, `onUploadStart`, and the
call into the host upload function. -/
def uploadFileSync (file : JsFile) (options : FileUploadPluginOptions)
    (requestedDisplayMode : DisplayMode) (uploadId : String) :
    List UploadAction :=
  let maxSize := options.maxSize.getD (10 * 1024 * 1024)
  if file.size > maxSize then
    [.notifyUploadError file.name .sizeExceeded]
  else
    let typeRejected :=
      match options.accept with
      | some acc => acc.length > 0 && !(isAcceptedFile acc file)
      | none => false
    if typeRejected then
      [.notifyUploadError file.name .typeRejected]
    else
      let displayMode :=
        getDisplayModeForType file.type options.displayModeByType requestedDisplayMode
      let placeholderAttrs : FileAttachmentAttrs :=
        { src := "", name := file.name, size := file.size,
          mimeType := file.type, displayMode := displayMode,
          alignment := .left, width := none, uploading := true,
          uploadId := some uploadId }
      [.insertPlaceholder displayMode placeholderAttrs,
       .notifyUploadStart file.name,
       .invokeUpload file.name]

/-- The display mode the drop/paste handlers pass to `uploadFile`:
resolved from the per-type map with `defaultDisplayMode ?? 'inline'` as
the fallback. -/
def dropDisplayMode (options : FileUploadPluginOptions) (file : JsFile) :
    DisplayMode :=
  getDisplayModeForType file.type options.displayModeByType
    (options.defaultDisplayMode.getD .inline)

/-- A document node, flattened: a `fileAttachment` node or any other
node (opaque). -/
inductive DocNode
  | file (attrs : FileAttachmentAttrs)
  | other (tag : Nat)
deriving DecidableEq, Repr

/-- The scan condition of `completeFileUpload` / `failFileUpload`:
`node.type.name === 'fileAttachment' && node.attrs.uploadId === uploadId`. -/
def nodeMatchesUpload (uploadId : String) (n : DocNode) : Bool :=
  match n with
  | .file attrs => attrs.uploadId == some uploadId
  | .other _ => false

/-- The `completeFileUpload` editor command: scan for nodes carrying the
upload id; if any is found, dispatch a transaction that sets `src`,
clears `uploading` and nulls `uploadId` on them, else leave the document
untouched.  Returns the new document and the command's `found` result. -/
def completeFileUpload (uploadId src : String) (doc : List DocNode) :
    List DocNode × Bool :=
  if doc.any (nodeMatchesUpload uploadId) then
    (doc.map fun n =>
      match n with
      | .file attrs =>
        if attrs.uploadId == some uploadId then
          .file { attrs with src := src, uploading := false, uploadId := none }
        else .file attrs
      | .other t => .other t, true)
  else (doc, false)

/-- The `failFileUpload` editor command: scan for nodes carrying the
upload id; if any is found, dispatch a transaction deleting them, else
leave the document untouched. -/
def failFileUpload (uploadId : String) (doc : List DocNode) :
    List DocNode × Bool :=
  if doc.any (nodeMatchesUpload uploadId) then
    (doc.filter (fun n => !(nodeMatchesUpload uploadId n)), true)
  else (doc, false)

/-- The outcome of the host upload promise. -/
inductive UploadOutcome
  | success (url : String)
  | failure (msg : String)
deriving DecidableEq, Repr

/-- The post-`await` tail of `uploadFile`: on success, return early when
the editor is destroyed, else complete the upload and notify the host;
on failure, always notify `onUploadError`, and remove the placeholder
only when the editor is not destroyed. -/
def finishUpload (outcome : UploadOutcome) (destroyed : Bool)
    (uploadId : String) (file : JsFile) (doc : List DocNode) :
    List DocNode × List UploadAction :=
  match outcome with
  | .success url =>
    if destroyed then (doc, [])
    else
      ((completeFileUpload uploadId url doc).1,
       [.notifyUploadComplete file.name url])
  | .failure msg =>
    if destroyed then (doc, [.notifyUploadError file.name (.uploadFailed msg)])
    else
      ((failFileUpload uploadId doc).1,
       [.notifyUploadError file.name (.uploadFailed msg)])

/-! ## Upload id generation (`generateUploadId`) -/

/-- The string built by `` `upload-${Date.now()}-${++uploadIdCounter}` ``:
the decimal rendering of the timestamp and of the incremented counter,
joined by dashes (template-literal interpolation of a JavaScript integer
is its decimal representation, i.e. `Nat.repr`). -/
def mkUploadId (t c : Nat) : String :=
  "upload-" ++ Nat.repr t ++ "-" ++ Nat.repr c

/-- The id returned by the `k`-th call (0-based) to `generateUploadId`
in a run of the module: the module-level counter starts at 0 and is
pre-incremented on every call, so call `k` observes counter value
`k + 1`; `times k` is whatever `Date.now()` returned during that call
(arbitrary, possibly repeating or decreasing). -/
def generateUploadIdRun (times : Nat → Nat) (k : Nat) : String :=
  mkUploadId (times k) (k + 1)

/-- The numeric value of a decimal digit character. -/
def digitVal (c : Char) : Nat := c.toNat - 48

/-- Reads a decimal digit run back into a number, starting from
accumulator `a`. -/
def decodeDigits (a : Nat) (ds : List Char) : Nat :=
  ds.foldl (fun acc c => acc * 10 + digitVal c) a

/-! ## Mention suggestion (`mention-suggestion` extension) -/

/-- A mention item (`MentionItem` from `types.ts`); `metadata` is an
opaque host value. -/
structure MentionItem where
  id : String
  label : String
  avatar : Option String
  metadata : Nat
deriving DecidableEq, Repr

/-- The option record of the `MentionSuggestion` extension
(`addOptions`), minus the opaque render/callback fields; the host search
function is passed separately where needed. -/
structure MentionSuggestionOptions where
  trigger : String
  allowSpaces : Bool
  minQueryLength : Nat
  maxSuggestions : Nat
  debounceMs : Nat
  noResultsText : String
  loadingText : String
deriving DecidableEq, Repr

/-- The `items` callback the extension passes to the suggestion plugin:
short-circuit to the empty list below `minQueryLength`, otherwise call
the host search function (immediately — the extension's
`addProseMirrorPlugins` never reads `debounceMs` and owns no timer) and
truncate the result to `maxSuggestions`. -/
def mentionItems (options : MentionSuggestionOptions)
    (onSearch : String → List MentionItem) (query : String) :
    List MentionItem :=
  if query.length < options.minQueryLength then []
  else (onSearch query).take options.maxSuggestions

/-- Whether an `items` call reaches `await this.options.onSearch(query)`:
exactly when the `minQueryLength` short-circuit does not fire. -/
def mentionSearchInvoked (options : MentionSuggestionOptions)
    (query : String) : Bool :=
  !(query.length < options.minQueryLength)

/-- The item list shown after a sequence of search resolutions settles,
in settle order: the render layer's `onUpdate` overwrites the displayed
items unconditionally on every resolution (the repository tracks no
generation counter), so the last resolution to settle wins. -/
def displayedItems (settled : List (List MentionItem)) : List MentionItem :=
  settled.foldl (fun _ r => r) []

/-- A mention item used in concrete scenarios. -/
def itemAda : MentionItem := ⟨"u1", "Ada", none, 0⟩

/-- A second mention item used in concrete scenarios. -/
def itemBob : MentionItem := ⟨"u2", "Bob", none, 0⟩

/-! ## Mention commit (`MentionSuggestion` `command`) -/

/-- An inline node of the paragraph around the mention commit point:
a text node, a mention node, or some other atom. -/
inductive InlineNode
  | text (s : String)
  | mention (id label : String) (avatar : Option String) (metadata : Nat)
  | atom (tag : Nat)
deriving DecidableEq, Repr

/-- The `addSpace` computation of the mention `command`:
`!nodeAfter?.text?.startsWith(' ')` — true when nothing follows, when a
non-text node follows, or when the following text node does not start
with the space character. -/
def mentionAddSpace (after : List InlineNode) : Bool :=
  match after.head? with
  | some (.text s) => !(jsStartsWith s " ")
  | _ => true

/-- The mention `command`: the paragraph is `before ++ range ++ after`
where `rangeText` is the trigger-plus-query text; the command deletes
the range, inserts a mention node carrying the selected item's id,
label, avatar and metadata, then inserts a trailing space when
`mentionAddSpace` holds of the content after the commit point. -/
def mentionCommand (before : List InlineNode) (rangeText : String)
    (item : MentionItem) (after : List InlineNode) : List InlineNode :=
  let addSpace := mentionAddSpace after
  let _ := rangeText
  before ++ [InlineNode.mention item.id item.label item.avatar item.metadata] ++
    (if addSpace then [InlineNode.text " "] else []) ++ after

/-- Spec-side predicate for the amended claim: the content after the
commit point begins with a text node whose first character is the space
character U+0020. -/
def followsWithSpaceChar (after : List InlineNode) : Bool :=
  match after.head? with
  | some (InlineNode.text s) => jsStartsWith s " "
  | _ => false

/-! ## Theorems -/

/-- C10: when the host upload promise rejects after the editor was
destroyed, `onUploadError` is still invoked with the original file and
error and only the placeholder removal is skipped; when it resolves
successfully after the editor was destroyed, `uploadFile` returns before
`onUploadComplete`, so the host gets no notification at all. -/
theorem finishUpload_destroyed_notifications (url msg uploadId : String)
    (file : JsFile) (doc : List DocNode) :
    finishUpload (.failure msg) true uploadId file doc =
      (doc, [.notifyUploadError file.name (.uploadFailed msg)]) ∧
    finishUpload (.success url) true uploadId file doc = (doc, []) := by
  exact ⟨rfl, rfl⟩

/-- C5: contrary to the spec, mention resolution is not debounced and
stale responses are not discarded: the extension's `items` pipeline is
entirely independent of the configured `debounceMs` (the option is
accepted and documented but never read), and the displayed list is
whatever resolution settles last, so an earlier-issued slow response
overwrites a later-issued fast one. -/
theorem mention_debounce_unused :
    (∀ (opts : MentionSuggestionOptions) (d : Nat)
        (onSearch : String → List MentionItem) (query : String),
      mentionItems { opts with debounceMs := d } onSearch query =
          mentionItems opts onSearch query ∧
        mentionSearchInvoked { opts with debounceMs := d } query =
          mentionSearchInvoked opts query) ∧
    displayedItems [[itemBob], [itemAda]] = [itemAda] ∧
    (itemAda == itemBob) = false := by
  exact ⟨fun _ _ _ _ => ⟨rfl, rfl⟩, rfl, by decide⟩

/-- C9 counterexample: with a tab character immediately after the commit
point — a whitespace character — the mention command still inserts a
trailing space, so "inserts a trailing space iff the following character
is not already whitespace" fails as stated. -/
theorem mentionCommand_whitespace_cex :
    mentionCommand [] "@B" itemBob [InlineNode.text "\tnext"] =
      [InlineNode.mention "u2" "Bob" none 0, InlineNode.text " ",
       InlineNode.text "\tnext"] ∧
    "\tnext".data.head? = some '\t' ∧
    Char.isWhitespace '\t' = true := by
  refine ⟨by decide, by decide, by decide⟩

/-- C9 (amended): committing a mention deletes the trigger-plus-query
range, inserts a mention node carrying the item's id, label, avatar and
metadata, and inserts a trailing space iff the content following the
commit point does not begin with a text node starting with the space
character U+0020. -/
theorem mentionCommand_spec (before : List InlineNode) (rangeText : String)
    (item : MentionItem) (after : List InlineNode) :
    mentionCommand before rangeText item after =
      before ++
        [InlineNode.mention item.id item.label item.avatar item.metadata] ++
        (if followsWithSpaceChar after then [] else [InlineNode.text " "]) ++
        after := by
  unfold mentionCommand mentionAddSpace followsWithSpaceChar
  cases after with
  | nil => simp
  | cons h t =>
    cases h with
    | text s =>
      cases hsp : jsStartsWith s " " <;> simp [hsp]
    | mention a b c d => simp
    | atom a => simp

/-- C8: the editor shell merges plugins by pure concatenation with no
deduplication: built-in commands first, then each plugin's commands in
supplied order; toolbar actions and extensions concatenate the same way;
two plugins both registering a command named "X" yield two entries named
"X". -/
theorem pluginMerge_concat :
    (∀ ps qs : List EditorPlugin,
      allSlashCommands (ps ++ qs) =
        allSlashCommands ps ++ qs.flatMap fun p => p.slashCommands.getD []) ∧
    (∀ ps : List EditorPlugin,
      (allSlashCommands ps).take defaultSlashCommands.length =
        defaultSlashCommands) ∧
    (∀ ps qs : List EditorPlugin,
      pluginToolbarActions (ps ++ qs) =
        pluginToolbarActions ps ++ pluginToolbarActions qs) ∧
    (∀ ps qs : List EditorPlugin,
      pluginExtensions (ps ++ qs) =
        pluginExtensions ps ++ pluginExtensions qs) ∧
    (allSlashCommands [pluginWithXa, pluginWithXb]).countP
      (fun c => c.name == "X") = 2 := by
  refine ⟨?_, ?_, ?_, ?_, ?_⟩
  · intro ps qs
    simp [allSlashCommands, List.flatMap_append, List.append_assoc]
  · intro ps
    simp [allSlashCommands, List.take_left]
  · intro ps qs
    simp [pluginToolbarActions, List.flatMap_append]
  · intro ps qs
    simp [pluginExtensions, List.flatMap_append]
  · decide

/-- C1: if at settle time the editor is destroyed or no document node
carries the upload id, the document is left completely unchanged:
`completeFileUpload` and `failFileUpload` dispatch nothing when no node
matches, and the destroyed-editor guard skips both commands. -/
theorem uploadSettle_noop (outcome : UploadOutcome) (destroyed : Bool)
    (uploadId src : String) (file : JsFile) (doc : List DocNode)
    (hnone : ∀ n ∈ doc, nodeMatchesUpload uploadId n = false) :
    completeFileUpload uploadId src doc = (doc, false) ∧
    failFileUpload uploadId doc = (doc, false) ∧
    (finishUpload outcome destroyed uploadId file doc).1 = doc ∧
    ∀ doc2 : List DocNode,
      (finishUpload outcome true uploadId file doc2).1 = doc2 := by
  have hany : doc.any (nodeMatchesUpload uploadId) = false :=
    List.any_eq_false.mpr fun x hx => by simp [hnone x hx]
  refine ⟨?_, ?_, ?_, ?_⟩
  · simp [completeFileUpload, hany]
  · simp [failFileUpload, hany]
  · cases outcome <;> cases destroyed <;>
      simp [finishUpload, completeFileUpload, failFileUpload, hany]
  · intro doc2
    cases outcome <;> simp [finishUpload]

/-- A sample document with no node carrying upload id "u1". -/
def sampleDoc : List DocNode :=
  [.other 7,
   .file ⟨"", "report.pdf", 3000, "application/pdf", .inline, .left, none,
          true, some "u2"⟩]

/-- Witness for C1 at a concrete document and upload id. -/
theorem uploadSettle_noop_witness :
    sampleDoc.all (fun n => !(nodeMatchesUpload "u1" n)) = true ∧
    completeFileUpload "u1" "https://cdn/x" sampleDoc = (sampleDoc, false) := by
  refine ⟨by decide, ?_⟩
  exact (uploadSettle_noop (.success "https://cdn/x") false "u1" "https://cdn/x"
    ⟨"report.pdf", 3000, "application/pdf"⟩ sampleDoc (by decide)).1

/-- C2: a file strictly larger than the configured (or default
10 · 1024 · 1024) maximum is reported through `onUploadError` as
size-exceeded with no placeholder insertion, no `onUploadStart`, and no
call into the host upload function; a file whose size equals the maximum
passes the size check and is accepted. -/
theorem uploadFile_size_limit (file : JsFile)
    (options : FileUploadPluginOptions) (req : DisplayMode)
    (uploadId : String) :
    (file.size > options.maxSize.getD (10 * 1024 * 1024) →
      uploadFileSync file options req uploadId =
        [.notifyUploadError file.name .sizeExceeded]) ∧
    (file.size = options.maxSize.getD (10 * 1024 * 1024) →
      options.accept = none →
      ∃ mode attrs,
        uploadFileSync file options req uploadId =
          [.insertPlaceholder mode attrs, .notifyUploadStart file.name,
           .invokeUpload file.name]) := by
  constructor
  · intro h
    simp only [uploadFileSync]
    rw [if_pos h]
  · intro heq hacc
    have h1 : ¬ (file.size > options.maxSize.getD (10 * 1024 * 1024)) := by
      omega
    refine ⟨getDisplayModeForType file.type options.displayModeByType req,
      ⟨"", file.name, file.size, file.type,
       getDisplayModeForType file.type options.displayModeByType req,
       .left, none, true, some uploadId⟩, ?_⟩
    simp [uploadFileSync, hacc, h1]

/-- A 15 MB file. -/
def bigFile : JsFile := ⟨"big.bin", 15 * 1024 * 1024, "application/octet-stream"⟩

/-- A file of exactly the default maximum size. -/
def maxFile : JsFile := ⟨"max.bin", 10 * 1024 * 1024, "application/octet-stream"⟩

/-- Options with everything at its default. -/
def defaultUploadOptions : FileUploadPluginOptions := ⟨none, none, none, none⟩

/-- Witness for C2: the 15 MB file is rejected with a size-exceeded
error and the maximum-size file is accepted. -/
theorem uploadFile_size_limit_witness :
    uploadFileSync bigFile defaultUploadOptions .inline "u1" =
      [.notifyUploadError "big.bin" .sizeExceeded] ∧
    uploadFileSync maxFile defaultUploadOptions .inline "u2" =
      [.insertPlaceholder .inline
        ⟨"", "max.bin", 10 * 1024 * 1024, "application/octet-stream",
         .inline, .left, none, true, some "u2"⟩,
       .notifyUploadStart "max.bin", .invokeUpload "max.bin"] := by
  constructor
  · exact (uploadFile_size_limit bigFile defaultUploadOptions .inline "u1").1
      (by decide)
  · have h := (uploadFile_size_limit maxFile defaultUploadOptions .inline
      "u2").2 (by decide) rfl
    obtain ⟨mode, attrs, hm⟩ := h
    have : uploadFileSync maxFile defaultUploadOptions .inline "u2" =
        [.insertPlaceholder .inline
          ⟨"", "max.bin", 10 * 1024 * 1024, "application/octet-stream",
           .inline, .left, none, true, some "u2"⟩,
         .notifyUploadStart "max.bin", .invokeUpload "max.bin"] := by decide
    exact this

/-- C3: display-mode resolution precedence: with no `displayModeByType`
map the per-call requested mode is used unchanged; an exact MIME key
wins over everything (in particular over any wildcard entry); otherwise
the first matching `type/*` wildcard entry wins over the requested mode;
with no match the requested mode stands; and on the drop/paste path with
no map and no configured default the resolved mode is `inline`. -/
theorem displayMode_precedence (mime : String)
    (m : List (String × DisplayMode)) (req v : DisplayMode)
    (opts : FileUploadPluginOptions) (file : JsFile) :
    (getDisplayModeForType mime none req = req) ∧
    (m.lookup mime = some v → getDisplayModeForType mime (some m) req = v) ∧
    (m.lookup mime = none →
      ∀ entry, m.find? (wildcardEntryMatches mime) = some entry →
        getDisplayModeForType mime (some m) req = entry.2) ∧
    (m.lookup mime = none → m.find? (wildcardEntryMatches mime) = none →
      getDisplayModeForType mime (some m) req = req) ∧
    (opts.displayModeByType = none → opts.defaultDisplayMode = none →
      dropDisplayMode opts file = DisplayMode.inline) := by
  refine ⟨rfl, ?_, ?_, ?_, ?_⟩
  · intro h
    simp [getDisplayModeForType, h]
  · intro h entry hf
    simp [getDisplayModeForType, h, hf]
  · intro h hf
    simp [getDisplayModeForType, h, hf]
  · intro h1 h2
    simp [dropDisplayMode, getDisplayModeForType, h1, h2]

/-- A per-type display-mode map where a wildcard entry precedes a
conflicting exact entry. -/
def sampleModeMap : List (String × DisplayMode) :=
  [("image/*", .inline), ("image/png", .block)]

/-- Witness for C3: the exact `image/png` entry beats the earlier
`image/*` wildcard; a merely wildcard-matched type gets the wildcard
mode over the requested mode; an unmatched type keeps the requested
mode; the empty configuration resolves to `inline`. -/
theorem displayMode_precedence_witness :
    getDisplayModeForType "image/png" (some sampleModeMap) .inline =
      DisplayMode.block ∧
    getDisplayModeForType "image/gif" (some sampleModeMap) .block =
      DisplayMode.inline ∧
    getDisplayModeForType "text/plain" (some sampleModeMap) .block =
      DisplayMode.block ∧
    dropDisplayMode defaultUploadOptions bigFile = DisplayMode.inline := by
  refine ⟨?_, ?_, ?_, ?_⟩
  · exact (displayMode_precedence "image/png" sampleModeMap .inline .block
      defaultUploadOptions bigFile).2.1 (by decide)
  · exact (displayMode_precedence "image/gif" sampleModeMap .block .inline
      defaultUploadOptions bigFile).2.2.1 (by decide)
      ("image/*", DisplayMode.inline) (by decide)
  · exact (displayMode_precedence "text/plain" sampleModeMap .block .block
      defaultUploadOptions bigFile).2.2.2.1 (by decide) (by decide)
  · exact (displayMode_precedence "x" [] .block .block defaultUploadOptions
      bigFile).2.2.2.2 rfl rfl

/-- C6: slash-command filtering with an empty query is the identity, and
in general returns, in original relative order, exactly the commands
whose lowercased name, description, or any lowercased alias contains the
lowercased query as a substring. -/
theorem filterCommands_spec (cmds : List SlashCommand) (q : String) :
    filterCommands cmds "" = cmds ∧
    filterCommands cmds q = cmds.filter (specCommandMatches q) := by
  constructor
  · simp [filterCommands]
  · by_cases hq : q = ""
    · subst hq
      rw [filterCommands, if_pos rfl]
      symm
      apply List.filter_eq_self.mpr
      intro c _
      have h0 : (jsToLower "").data = [] := by decide
      simp [specCommandMatches, h0, List.nil_infix]
    · rw [filterCommands, if_neg hq]
      apply List.filter_congr
      intro c _
      cases hal : c.aliases <;>
        simp [specCommandMatches, jsIncludes, hal]

/-- C7: `groupCommands` buckets the input by `group`, emits buckets in
the fixed ascending priority order basic, lists, formatting, advanced,
media, custom regardless of input order, omits empty buckets, and each
bucket is the input filtered to that group (so within-bucket order is
the input's relative order). -/
theorem groupCommands_spec (cmds : List SlashCommand) :
    groupCommands cmds =
      (specOrderedGroups.map fun g =>
        (g, cmds.filter fun c => c.group == g.id)).filter
        (fun p => !p.2.isEmpty) ∧
    ((groupCommands cmds).map fun p => p.1.id).Sublist
      [.basic, .lists, .formatting, .advanced, .media, .custom] := by
  have hsort : sortGroupsByPriority commandGroups = specOrderedGroups := by
    decide
  have hmain : groupCommands cmds =
      (specOrderedGroups.map fun g =>
        (g, cmds.filter fun c => c.group == g.id)).filter
        (fun p => !p.2.isEmpty) := by
    rw [groupCommands, hsort]
    generalize specOrderedGroups = l
    induction l with
    | nil => rfl
    | cons g t ih =>
      rw [List.map_cons]
      cases hgc : (cmds.filter fun c => c.group == g.id).isEmpty
      · rw [List.filterMap_cons_some (b := (g, cmds.filter fun c => c.group == g.id)) (by simp [hgc]),
          List.filter_cons_of_pos (by simp [hgc]), ih]
      · rw [List.filterMap_cons_none (by simp [hgc]),
          List.filter_cons_of_neg (by simp [hgc]), ih]
  refine ⟨hmain, ?_⟩
  rw [hmain]
  have h2 := (List.filter_sublist (p := fun p => !p.2.isEmpty)
    (specOrderedGroups.map fun g =>
      (g, cmds.filter fun c => c.group == g.id))).map
    (fun p : SlashCommandGroupInfo × List SlashCommand => p.1.id)
  have h3 : ((specOrderedGroups.map fun g =>
      (g, cmds.filter fun c => c.group == g.id)).map
        fun p => p.1.id) =
      ([.basic, .lists, .formatting, .advanced, .media, .custom] :
        List SlashCommandGroup) := by
    simp [specOrderedGroups]
  exact h3 ▸ h2

/-- Decimal digit characters decode to their value. -/
theorem digitVal_digitChar {m : Nat} (h : m < 10) :
    digitVal (Nat.digitChar m) = m := by
  interval_cases m <;> decide

/-- Decimal digit characters are never the dash. -/
theorem digitChar_ne_dash {m : Nat} (h : m < 10) : Nat.digitChar m ≠ '-' := by
  interval_cases m <;> decide

/-- What the base-10 digit engine underneath `Nat.repr` produces when
given enough gas: some block of decimal digit characters prepended to
the running tail, whose decimal decoding (from any accumulator) recovers
the rendered number. -/
theorem toDigitsCore_shape :
    ∀ (gas v : Nat) (tail : List Char), v < gas →
      ∃ run : List Char,
        (∀ a : Nat, decodeDigits a run = a * 10 ^ run.length + v) ∧
        (∀ ch ∈ run, ∃ k, k < 10 ∧ ch = Nat.digitChar k) ∧
        Nat.toDigitsCore 10 gas v tail = run ++ tail := by
  intro gas
  induction gas with
  | zero => exact fun v tail h => absurd h (Nat.not_lt_zero v)
  | succ gas ih =>
    intro v tail hv
    rw [Nat.toDigitsCore]
    by_cases hq : v / 10 = 0
    · have hsmall : v < 10 := by
        rcases Nat.lt_or_ge v 10 with h | h
        · exact h
        · exact absurd hq (by
            have : 1 ≤ v / 10 := Nat.le_div_iff_mul_le (by omega) |>.mpr (by omega)
            omega)
      refine ⟨[Nat.digitChar (v % 10)], ?_, ?_, by simp [hq]⟩
      · intro a
        simp only [decodeDigits, List.foldl_cons, List.foldl_nil,
          List.length_singleton, pow_one]
        rw [digitVal_digitChar (Nat.mod_lt _ (by omega)), Nat.mod_eq_of_lt hsmall]
      · intro ch hch
        simp only [List.mem_singleton] at hch
        exact ⟨v % 10, Nat.mod_lt _ (by omega), hch⟩
    · have hgas : v / 10 < gas := by
        have hlt : v / 10 < v := Nat.div_lt_self (by omega) (by omega)
        omega
      obtain ⟨run, hdec, hdigits, hrun⟩ :=
        ih (v / 10) (Nat.digitChar (v % 10) :: tail) hgas
      refine ⟨run ++ [Nat.digitChar (v % 10)], ?_, ?_, ?_⟩
      · intro a
        rw [decodeDigits, List.foldl_append]
        have hlast : List.foldl (fun acc ch => acc * 10 + digitVal ch)
            (List.foldl (fun acc ch => acc * 10 + digitVal ch) a run)
            [Nat.digitChar (v % 10)] =
            (decodeDigits a run) * 10 + (v % 10) := by
          simp [decodeDigits, digitVal_digitChar (Nat.mod_lt _ (by omega : 0 < 10))]
        rw [hlast, hdec a, List.length_append, List.length_singleton,
          pow_succ]
        have hsplit := Nat.div_add_mod v 10
        generalize (10 : Nat) ^ run.length = K at *
        ring_nf
        omega
      · intro ch hch
        rcases List.mem_append.mp hch with hch | hch
        · exact hdigits ch hch
        · simp only [List.mem_singleton] at hch
          exact ⟨v % 10, Nat.mod_lt _ (by omega), hch⟩
      · rw [if_neg hq, hrun]
        simp

/-- The decimal rendering `Nat.repr` consists of digit characters and
decodes back to the number. -/
theorem repr_shape (n : Nat) :
    (∀ c ∈ (Nat.repr n).data, ∃ m, m < 10 ∧ c = Nat.digitChar m) ∧
    decodeDigits 0 (Nat.repr n).data = n := by
  obtain ⟨run, hdec, hdigits, hrun⟩ := toDigitsCore_shape (n + 1) n [] (by omega)
  have h1 : (Nat.repr n).data = run := by
    show (Nat.toDigits 10 n).asString.data = run
    rw [Nat.toDigits, hrun]
    simp [List.asString]
  rw [h1]
  exact ⟨hdigits, by rw [hdec 0]; simp⟩

/-- Distinct numbers have distinct decimal renderings. -/
theorem repr_data_inj {m n : Nat}
    (h : (Nat.repr m).data = (Nat.repr n).data) : m = n := by
  have hm := (repr_shape m).2
  have hn := (repr_shape n).2
  rw [h] at hm
  omega

/-- No dash occurs in a decimal rendering. -/
theorem repr_no_dash (n : Nat) : ∀ c ∈ (Nat.repr n).data, c ≠ '-' := by
  intro c hc
  obtain ⟨m, hm, rfl⟩ := (repr_shape n).1 c hc
  exact digitChar_ne_dash hm

/-- `takeWhile` up to the first dash recovers a dash-free block. -/
theorem takeWhile_no_dash :
    ∀ (l r : List Char), (∀ c ∈ l, c ≠ '-') →
      (l ++ '-' :: r).takeWhile (fun c => c != '-') = l := by
  intro l
  induction l with
  | nil => intro r _; simp [List.takeWhile]
  | cons c t ih =>
    intro r h
    have hc : (c != '-') = true := by
      simpa using h c (List.mem_cons_self c t)
    simp only [List.cons_append, List.takeWhile_cons, hc, if_true]
    rw [ih r fun x hx => h x (List.mem_cons_of_mem c hx)]

/-- The segment after the last dash is determined by the whole string. -/
theorem lastSeg_eq (l1 l2 r1 r2 : List Char)
    (h1 : ∀ c ∈ l1, c ≠ '-') (h2 : ∀ c ∈ l2, c ≠ '-')
    (h : r1 ++ '-' :: l1 = r2 ++ '-' :: l2) : l1 = l2 := by
  have hrev := congrArg List.reverse h
  rw [List.reverse_append, List.reverse_append, List.reverse_cons,
    List.reverse_cons, List.append_assoc, List.append_assoc,
    List.singleton_append, List.singleton_append] at hrev
  have htk := congrArg (List.takeWhile (fun c => c != '-')) hrev
  rw [takeWhile_no_dash _ _ (fun c hc => h1 c (List.mem_reverse.mp hc)),
    takeWhile_no_dash _ _ (fun c hc => h2 c (List.mem_reverse.mp hc))] at htk
  exact List.reverse_injective htk

/-- Two equal upload-id strings carry the same counter value: the
counter's decimal rendering is the dash-free segment after the last
dash. -/
theorem mkUploadId_counter_inj {t1 c1 t2 c2 : Nat}
    (h : mkUploadId t1 c1 = mkUploadId t2 c2) : c1 = c2 := by
  have hdata : ("upload-".data ++ (Nat.repr t1).data) ++ '-' :: (Nat.repr c1).data =
      ("upload-".data ++ (Nat.repr t2).data) ++ '-' :: (Nat.repr c2).data := by
    have hd := congrArg String.data h
    simp only [mkUploadId, String.data_append] at hd
    simp only [List.append_assoc, List.singleton_append]
    simpa [List.append_assoc] using hd
  exact repr_data_inj (lastSeg_eq _ _ _ _ (repr_no_dash c1) (repr_no_dash c2) hdata)

/-- C4: any two distinct calls to `generateUploadId` in a module run
return distinct id strings, whatever `Date.now()` returned each time,
because each id embeds the strictly increasing counter value as its
final dash-separated component. -/
theorem uploadIds_distinct (times : Nat → Nat) (i j : Nat) (hij : i ≠ j) :
    generateUploadIdRun times i ≠ generateUploadIdRun times j := by
  intro h
  exact hij (Nat.succ_injective (mkUploadId_counter_inj h))

/-- Witness for C4: the first two ids of a run with a frozen clock
differ. -/
theorem uploadIds_distinct_witness :
    (0 : Nat) ≠ 1 ∧
    generateUploadIdRun (fun _ => 1730000000000) 0 ≠
      generateUploadIdRun (fun _ => 1730000000000) 1 :=
  ⟨by decide, uploadIds_distinct (fun _ => 1730000000000) 0 1 (by decide)⟩

end RTE
